import Mathlib

/-!
Verification of the phraser event-generation core against its source
(src/app/index.ts). The reactive pipeline is embedded shallowly:

* the rxjs interval/scan pair of createPeriodStream becomes the step
  function periodScanStep and its iterate periodStateAfter, with the
  value of each Math.random() call supplied as a rational in [0,1)
  (one stream rs for duration draws, indexed by tick);
* the filter/map/scan chain of createNoteEventStream becomes the Bool
  classifiers audibleFilter and periodEndFilter, the draw pitchDraw and
  the explicit scan scanEmits;
* the click filter of Main.clickStream becomes clickFilter;
* Main's combineLatest/switchMap wiring around the share()d period
  stream becomes the small transition system pipelineStep;
* loadSettings and the periodStream construction in Main's constructor
  become loadSettings and startupPeriodArgs over an Option-valued store.

JavaScript numbers on the traced paths hold integers (tick indices,
durations, pitches), embedded as Nat and Int; Math.random() values are
rationals; a non-numeric pitch (undefined array element, NaN after
adding transpose) is embedded as Option.none.
-/

/-- The hard-coded phrase constant of index.ts line 31. -/
def barLength : ℕ := 4

/-- The Subdivision enum: pulses per beat. -/
inductive Subdivision where
  | Quarter
  | Eighth
  | Sixteenth
deriving DecidableEq

/-- Numeric value of a Subdivision, as the ts enum assigns it. -/
def Subdivision.val : Subdivision → ℕ
  | Quarter => 1
  | Eighth => 2
  | Sixteenth => 4

/-- The current field of the Period interface: duration (in pulses) and
zero-based position within the period. -/
structure PeriodCurrent where
  duration : ℤ
  currPeriodIndex : ℤ
deriving DecidableEq

/-- The Period interface: absolute tick index, subdivision in effect and
the live period state. -/
structure Period where
  absoluteSubdivisionIndex : ℕ
  subdivisionType : Subdivision
  current : PeriodCurrent
deriving DecidableEq

/-- The duration draw inside createPeriodStream:
Math.floor(Math.random() * (maxDuration - minDuration + 1) + minDuration),
with the Math.random() value r supplied. -/
def drawDuration (minDuration maxDuration : ℤ) (r : ℚ) : ℤ :=
  ⌊r * ((maxDuration : ℚ) - (minDuration : ℚ) + 1) + (minDuration : ℚ)⌋

/-- One step of the scan inside createPeriodStream, for interval value i;
r is the Math.random() value consumed when the period is complete. -/
def periodScanStep (subdivision : Subdivision) (minDuration maxDuration : ℤ)
    (r : ℚ) (note : Period) (i : ℕ) : Period :=
  if note.current.currPeriodIndex + 1 ≥ note.current.duration then
    { absoluteSubdivisionIndex := i
      subdivisionType := subdivision
      current := { duration := drawDuration minDuration maxDuration r
                   currPeriodIndex := 0 } }
  else
    { absoluteSubdivisionIndex := i
      subdivisionType := subdivision
      current := { duration := note.current.duration
                   currPeriodIndex := note.current.currPeriodIndex + 1 } }

/-- The seed of the scan inside createPeriodStream. -/
def periodSeed (subdivision : Subdivision) : Period :=
  { absoluteSubdivisionIndex := 0
    subdivisionType := subdivision
    current := { duration := 0, currPeriodIndex := 0 } }

/-- Scan accumulator after n ticks have been processed (n = 0 is the seed,
before the first tick). rs n is the Math.random() value available at tick n. -/
def periodStateAfter (subdivision : Subdivision) (minDuration maxDuration : ℤ)
    (rs : ℕ → ℚ) : ℕ → Period
  | 0 => periodSeed subdivision
  | n + 1 =>
      periodScanStep subdivision minDuration maxDuration (rs n)
        (periodStateAfter subdivision minDuration maxDuration rs n) n

/-- The Period value the stream emits at tick t: the accumulator after
processing tick t. -/
def periodEmit (subdivision : Subdivision) (minDuration maxDuration : ℤ)
    (rs : ℕ → ℚ) (t : ℕ) : Period :=
  periodStateAfter subdivision minDuration maxDuration rs (t + 1)

/-- Tick t is a boundary tick when the isComplete condition of the scan
holds of the state the tick transforms (a re-roll happens at t). -/
def isBoundaryTick (subdivision : Subdivision) (minDuration maxDuration : ℤ)
    (rs : ℕ → ℚ) (t : ℕ) : Bool :=
  decide ((periodStateAfter subdivision minDuration maxDuration rs t).current.currPeriodIndex + 1
    ≥ (periodStateAfter subdivision minDuration maxDuration rs t).current.duration)

lemma span_pos {minDuration maxDuration : ℤ} (h : minDuration ≤ maxDuration) :
    (0 : ℚ) < (maxDuration : ℚ) - (minDuration : ℚ) + 1 := by
  have : (minDuration : ℚ) ≤ (maxDuration : ℚ) := by exact_mod_cast h
  linarith

lemma drawDuration_lb {minDuration maxDuration : ℤ} {r : ℚ}
    (h : minDuration ≤ maxDuration) (hr0 : 0 ≤ r) :
    minDuration ≤ drawDuration minDuration maxDuration r := by
  apply Int.le_floor.mpr
  have hspan : (0 : ℚ) ≤ (maxDuration : ℚ) - (minDuration : ℚ) + 1 :=
    le_of_lt (span_pos h)
  nlinarith [mul_nonneg hr0 hspan]

lemma drawDuration_ub {minDuration maxDuration : ℤ} {r : ℚ}
    (h : minDuration ≤ maxDuration) (hr1 : r < 1) :
    drawDuration minDuration maxDuration r ≤ maxDuration := by
  have h1 : drawDuration minDuration maxDuration r < maxDuration + 1 := by
    apply Int.floor_lt.mpr
    push_cast
    nlinarith [span_pos h]
  omega

lemma drawDuration_eq_iff {minDuration maxDuration : ℤ} {r : ℚ}
    (h : minDuration ≤ maxDuration) (k : ℤ) :
    drawDuration minDuration maxDuration r = k ↔
      ((k : ℚ) - (minDuration : ℚ)) / ((maxDuration : ℚ) - (minDuration : ℚ) + 1) ≤ r ∧
        r < ((k : ℚ) - (minDuration : ℚ) + 1) / ((maxDuration : ℚ) - (minDuration : ℚ) + 1) := by
  have hs := span_pos h
  rw [drawDuration, Int.floor_eq_iff]
  rw [div_le_iff₀ hs, lt_div_iff₀ hs]
  constructor
  · rintro ⟨ha, hb⟩
    exact ⟨by nlinarith, by nlinarith⟩
  · rintro ⟨ha, hb⟩
    exact ⟨by nlinarith, by nlinarith⟩

/-- The sequencer invariant: from the first transition on, the position is
strictly below the duration and the duration is within bounds. -/
lemma periodInvariant (subdivision : Subdivision) (minDuration maxDuration : ℤ)
    (rs : ℕ → ℚ) (h1 : 1 ≤ minDuration) (h2 : minDuration ≤ maxDuration)
    (hr : ∀ n, 0 ≤ rs n ∧ rs n < 1) (n : ℕ) :
    (periodStateAfter subdivision minDuration maxDuration rs (n + 1)).current.currPeriodIndex <
      (periodStateAfter subdivision minDuration maxDuration rs (n + 1)).current.duration ∧
    minDuration ≤ (periodStateAfter subdivision minDuration maxDuration rs (n + 1)).current.duration ∧
    (periodStateAfter subdivision minDuration maxDuration rs (n + 1)).current.duration ≤ maxDuration := by
  induction n with
  | zero =>
      have hdraw1 := drawDuration_lb h2 (hr 0).1
      have hdraw2 := drawDuration_ub h2 (hr 0).2
      simp only [periodStateAfter, periodScanStep, periodSeed]
      norm_num
      exact ⟨by omega, hdraw1, hdraw2⟩
  | succ n ih =>
      have hdraw1 := drawDuration_lb h2 (hr (n + 1)).1
      have hdraw2 := drawDuration_ub h2 (hr (n + 1)).2
      rw [periodStateAfter, periodScanStep]
      by_cases hc :
          (periodStateAfter subdivision minDuration maxDuration rs (n + 1)).current.currPeriodIndex + 1 ≥
            (periodStateAfter subdivision minDuration maxDuration rs (n + 1)).current.duration
      · rw [if_pos hc]
        dsimp only
        exact ⟨by omega, hdraw1, hdraw2⟩
      · rw [if_neg hc]
        dsimp only
        refine ⟨by omega, ih.2.1, ih.2.2⟩

/-- C1: on each tick, if position+1 >= duration held in the state before the
tick, the new state carries a fresh duration
floor(r * (maxDuration - minDuration + 1) + minDuration), which lies in
[minDuration, maxDuration] and equals k exactly when r falls in the k-th of
the equal-length subintervals of [0,1) (the uniform draw), with position
reset to 0; otherwise duration is unchanged and position is incremented.
With the seed duration=0, position=0, tick 0 is always a boundary tick. -/
theorem c1_period_transition (subdivision : Subdivision) (minDuration maxDuration : ℤ)
    (r : ℚ) (rs : ℕ → ℚ) (p : Period) (i : ℕ)
    (h2 : minDuration ≤ maxDuration) (hr0 : 0 ≤ r) (hr1 : r < 1) :
    (p.current.currPeriodIndex + 1 ≥ p.current.duration →
      periodScanStep subdivision minDuration maxDuration r p i =
        { absoluteSubdivisionIndex := i
          subdivisionType := subdivision
          current := { duration := drawDuration minDuration maxDuration r
                       currPeriodIndex := 0 } } ∧
      minDuration ≤ drawDuration minDuration maxDuration r ∧
      drawDuration minDuration maxDuration r ≤ maxDuration ∧
      (∀ k : ℤ, drawDuration minDuration maxDuration r = k ↔
        ((k : ℚ) - (minDuration : ℚ)) / ((maxDuration : ℚ) - (minDuration : ℚ) + 1) ≤ r ∧
          r < ((k : ℚ) - (minDuration : ℚ) + 1) / ((maxDuration : ℚ) - (minDuration : ℚ) + 1))) ∧
    (¬ (p.current.currPeriodIndex + 1 ≥ p.current.duration) →
      periodScanStep subdivision minDuration maxDuration r p i =
        { absoluteSubdivisionIndex := i
          subdivisionType := subdivision
          current := { duration := p.current.duration
                       currPeriodIndex := p.current.currPeriodIndex + 1 } }) ∧
    isBoundaryTick subdivision minDuration maxDuration rs 0 = true := by
  refine ⟨fun hc => ⟨?_, drawDuration_lb h2 hr0, drawDuration_ub h2 hr1,
      fun k => drawDuration_eq_iff h2 k⟩, fun hc => ?_, ?_⟩
  · rw [periodScanStep, if_pos hc]
  · rw [periodScanStep, if_neg hc]
  · simp only [isBoundaryTick, periodStateAfter, periodSeed, ge_iff_le,
      decide_eq_true_eq]
    omega

theorem c1_period_transition_w :
    (1 : ℤ) ≤ 2 ∧
    periodScanStep Subdivision.Eighth 1 2 (1 / 2) (periodSeed Subdivision.Eighth) 0 =
      { absoluteSubdivisionIndex := 0
        subdivisionType := Subdivision.Eighth
        current := { duration := drawDuration 1 2 (1 / 2), currPeriodIndex := 0 } } :=
  ⟨by norm_num,
    ((c1_period_transition Subdivision.Eighth 1 2 (1 / 2) (fun _ => 1 / 2)
        (periodSeed Subdivision.Eighth) 0 (by norm_num) (by norm_num) (by norm_num)).1
      (by decide)).1⟩

/-- C2: with 1 <= minDuration <= maxDuration and every random value in
[0,1), after every transition the state satisfies position < duration and
minDuration <= duration <= maxDuration, from the first tick onward. -/
theorem c2_sequencer_invariant (subdivision : Subdivision) (minDuration maxDuration : ℤ)
    (rs : ℕ → ℚ) (h1 : 1 ≤ minDuration) (h2 : minDuration ≤ maxDuration)
    (hr : ∀ n, 0 ≤ rs n ∧ rs n < 1) (n : ℕ) :
    (periodStateAfter subdivision minDuration maxDuration rs (n + 1)).current.currPeriodIndex <
      (periodStateAfter subdivision minDuration maxDuration rs (n + 1)).current.duration ∧
    minDuration ≤ (periodStateAfter subdivision minDuration maxDuration rs (n + 1)).current.duration ∧
    (periodStateAfter subdivision minDuration maxDuration rs (n + 1)).current.duration ≤ maxDuration :=
  periodInvariant subdivision minDuration maxDuration rs h1 h2 hr n

theorem c2_sequencer_invariant_w :
    (periodStateAfter Subdivision.Eighth 1 2 (fun _ => 1 / 2) 1).current.currPeriodIndex <
      (periodStateAfter Subdivision.Eighth 1 2 (fun _ => 1 / 2) 1).current.duration ∧
    (1 : ℤ) ≤ (periodStateAfter Subdivision.Eighth 1 2 (fun _ => 1 / 2) 1).current.duration ∧
    (periodStateAfter Subdivision.Eighth 1 2 (fun _ => 1 / 2) 1).current.duration ≤ 2 :=
  c2_sequencer_invariant Subdivision.Eighth 1 2 (fun _ => 1 / 2) (by norm_num)
    (by norm_num) (fun n => ⟨by norm_num, by norm_num⟩) 0

/-- C3 counterexample: at tick 0 the claimed iff fails: tick 0 is a
boundary tick, yet position + 1 = duration does not hold of the initial
state duration=0, position=0 (1 is not 0). -/
theorem c3_boundary_iff_cex :
    isBoundaryTick Subdivision.Eighth 1 2 (fun _ => (1 : ℚ) / 2) 0 = true ∧
    ¬ ((periodStateAfter Subdivision.Eighth 1 2 (fun _ => (1 : ℚ) / 2) 0).current.currPeriodIndex + 1 =
        (periodStateAfter Subdivision.Eighth 1 2 (fun _ => (1 : ℚ) / 2) 0).current.duration) := by
  constructor
  · simp only [isBoundaryTick, periodStateAfter, periodSeed, ge_iff_le,
      decide_eq_true_eq]
    omega
  · simp only [periodStateAfter, periodSeed]
    omega

/-- C3 (amended): for every tick t >= 1, a boundary occurs at t if and only
if position + 1 = duration held after tick t-1; at tick 0 a boundary always
occurs, even though position + 1 = duration fails on the initial state. -/
theorem c3_boundary_iff_amended (subdivision : Subdivision) (minDuration maxDuration : ℤ)
    (rs : ℕ → ℚ) (h1 : 1 ≤ minDuration) (h2 : minDuration ≤ maxDuration)
    (hr : ∀ n, 0 ≤ rs n ∧ rs n < 1) (t : ℕ) :
    (isBoundaryTick subdivision minDuration maxDuration rs (t + 1) = true ↔
      (periodEmit subdivision minDuration maxDuration rs t).current.currPeriodIndex + 1 =
        (periodEmit subdivision minDuration maxDuration rs t).current.duration) ∧
    isBoundaryTick subdivision minDuration maxDuration rs 0 = true := by
  constructor
  · have hinv := (periodInvariant subdivision minDuration maxDuration rs h1 h2 hr t).1
    simp only [isBoundaryTick, periodEmit, ge_iff_le, decide_eq_true_eq]
    omega
  · simp only [isBoundaryTick, periodStateAfter, periodSeed, ge_iff_le,
      decide_eq_true_eq]
    omega

theorem c3_boundary_iff_amended_w :
    isBoundaryTick Subdivision.Eighth 1 2 (fun _ => 1 / 2) 1 = true ↔
      (periodEmit Subdivision.Eighth 1 2 (fun _ => 1 / 2) 0).current.currPeriodIndex + 1 =
        (periodEmit Subdivision.Eighth 1 2 (fun _ => 1 / 2) 0).current.duration :=
  (c3_boundary_iff_amended Subdivision.Eighth 1 2 (fun _ => 1 / 2) (by norm_num)
    (by norm_num) (fun n => ⟨by norm_num, by norm_num⟩) 0).1

/-- The pure phrase classifier of createNoteEventStream's first filter:
floor(i / (subdivision * barLength)) mod 2 = 0. -/
def audible (subdivision : Subdivision) (i : ℕ) : Bool :=
  decide ((i / (subdivision.val * barLength)) % 2 = 0)

/-- The first filter of createNoteEventStream, on the Period it receives. -/
def audibleFilter (p : Period) : Bool :=
  decide ((p.absoluteSubdivisionIndex / (p.subdivisionType.val * barLength)) % 2 = 0)

/-- The second filter of createNoteEventStream: the emitted state has
position + 1 = duration. -/
def periodEndFilter (p : Period) : Bool :=
  decide (p.current.currPeriodIndex + 1 = p.current.duration)

lemma audibleFilter_eq (p : Period) :
    audibleFilter p = audible p.subdivisionType p.absoluteSubdivisionIndex := rfl

lemma subdivision_val_pos (s : Subdivision) : 0 < s.val := by
  cases s <;> simp [Subdivision.val]

/-- C4: a tick is audible iff floor(i / (subdivision * 4)) mod 2 = 0;
audibility is periodic with period 2 * subdivision * 4, holds on the first
subdivision * 4 indices of each cycle, fails on the second, and holds at
tick 0. -/
theorem c4_phrase_gate (subdivision : Subdivision) (i : ℕ) :
    (audible subdivision i = true ↔ (i / (subdivision.val * 4)) % 2 = 0) ∧
    audible subdivision (i + 2 * (subdivision.val * 4)) = audible subdivision i ∧
    (i % (2 * (subdivision.val * 4)) < subdivision.val * 4 → audible subdivision i = true) ∧
    (subdivision.val * 4 ≤ i % (2 * (subdivision.val * 4)) → audible subdivision i = false) ∧
    audible subdivision 0 = true := by
  have hL : 0 < subdivision.val * 4 := by
    have := subdivision_val_pos subdivision
    omega
  have hhalf : (i / (subdivision.val * 4)) % 2 = i % (subdivision.val * 4 * 2) / (subdivision.val * 4) :=
    (Nat.mod_mul_right_div_self i (subdivision.val * 4) 2).symm
  refine ⟨?_, ?_, ?_, ?_, ?_⟩
  · simp [audible, barLength]
  · simp only [audible, barLength]
    have : (i + 2 * (subdivision.val * 4)) / (subdivision.val * 4) =
        i / (subdivision.val * 4) + 2 := by
      rw [mul_comm 2 (subdivision.val * 4), Nat.add_mul_div_left _ _ hL]
    simp only [this, Nat.add_mod_right]
  · intro hfirst
    simp only [audible, barLength, decide_eq_true_eq]
    rw [hhalf, mul_comm (subdivision.val * 4) 2]
    exact Nat.div_eq_of_lt hfirst
  · intro hsecond
    simp only [audible, barLength, decide_eq_false_iff_not, decide_eq_true_eq]
    rw [hhalf, mul_comm (subdivision.val * 4) 2]
    have hub : i % (2 * (subdivision.val * 4)) < 2 * (subdivision.val * 4) :=
      Nat.mod_lt _ (by omega)
    have h1 : 1 ≤ i % (2 * (subdivision.val * 4)) / (subdivision.val * 4) :=
      (Nat.le_div_iff_mul_le hL).mpr (by omega)
    have h2 : i % (2 * (subdivision.val * 4)) / (subdivision.val * 4) < 2 :=
      Nat.div_lt_of_lt_mul (by omega)
    omega
  · simp [audible, barLength, Nat.zero_div]

/-- The filter of Main's clickStream: a tick clicks iff its absolute index
is divisible by the subdivision in effect. -/
def clickFilter (p : Period) : Bool :=
  decide (p.absoluteSubdivisionIndex % p.subdivisionType.val = 0)

/-- C5: a tick produces a click iff its index i satisfies
i mod subdivision = 0, independently of the period state (any current
field gives the same answer) and of audibility; for subdivision = 2 the
clicks fall exactly on the even tick indices, through audible and silent
phrases alike. -/
theorem c5_click_derivation (subdivision : Subdivision) (i k : ℕ)
    (cur cur₂ : PeriodCurrent) :
    (clickFilter ⟨i, subdivision, cur⟩ = true ↔ i % subdivision.val = 0) ∧
    clickFilter ⟨i, subdivision, cur⟩ = clickFilter ⟨i, subdivision, cur₂⟩ ∧
    clickFilter ⟨2 * k, Subdivision.Eighth, cur⟩ = true ∧
    clickFilter ⟨2 * k + 1, Subdivision.Eighth, cur⟩ = false := by
  refine ⟨by simp [clickFilter], rfl, ?_, ?_⟩
  · simp [clickFilter, Subdivision.val, Nat.mul_mod_right]
  · simp [clickFilter, Subdivision.val, Nat.add_mul_mod_self_left]
    omega

/-- The NoteEvent interface; a missing value (no note fired yet, or a
non-numeric pitch such as NaN from an undefined array element plus
transpose) is none. -/
structure NoteEvent where
  curr : Option ℤ
  previous : Option ℤ
deriving DecidableEq

/-- JavaScript array indexing notes[i]: undefined (none) out of range. -/
def jsGet (l : List ℤ) (i : ℤ) : Option ℤ :=
  if h : 0 ≤ i ∧ i.toNat < l.length then some (l.get ⟨i.toNat, h.2⟩) else none

/-- The map of createNoteEventStream:
notes[Math.floor(r * notes.length)] + transpose, with the Math.random()
value r supplied; none when the index misses the array. -/
def pitchDraw (notes : List ℤ) (transpose : ℤ) (r : ℚ) : Option ℤ :=
  (jsGet notes ⌊r * (notes.length : ℚ)⌋).map (fun n => n + transpose)

/-- One step of the final scan of createNoteEventStream. -/
def noteScanStep (event : NoteEvent) (c : Option ℤ) : NoteEvent :=
  { curr := c, previous := event.curr }

/-- The outputs of an rxjs scan over inputs ps from accumulator ev: one
output per input, the seed itself never emitted. -/
def scanEmits (ev : NoteEvent) : List (Option ℤ) → List NoteEvent
  | [] => []
  | c :: rest => noteScanStep ev c :: scanEmits (noteScanStep ev c) rest

/-- The NoteEvents createNoteEventStream emits for the pitch draws ps,
from the scan seed with both fields missing. -/
def noteEvents (ps : List (Option ℤ)) : List NoteEvent :=
  scanEmits { curr := none, previous := none } ps

/-- The emission of createNoteEventStream at tick t: none when a filter
rejects the tick, some pitch when both filters pass and the map draws
pitch with the Math.random() value rN t. -/
def noteEmitAt (subdivision : Subdivision) (minDuration maxDuration : ℤ)
    (rs rN : ℕ → ℚ) (notes : List ℤ) (transpose : ℤ) (t : ℕ) : Option (Option ℤ) :=
  if audibleFilter (periodEmit subdivision minDuration maxDuration rs t) &&
      periodEndFilter (periodEmit subdivision minDuration maxDuration rs t) then
    some (pitchDraw notes transpose (rN t))
  else
    none

/-- The pitch draws of the first n ticks, in stream order. -/
def notePitches (subdivision : Subdivision) (minDuration maxDuration : ℤ)
    (rs rN : ℕ → ℚ) (notes : List ℤ) (transpose : ℤ) (n : ℕ) : List (Option ℤ) :=
  (List.range n).filterMap
    (noteEmitAt subdivision minDuration maxDuration rs rN notes transpose)

lemma periodEmit_index (subdivision : Subdivision) (minDuration maxDuration : ℤ)
    (rs : ℕ → ℚ) (t : ℕ) :
    (periodEmit subdivision minDuration maxDuration rs t).absoluteSubdivisionIndex = t ∧
    (periodEmit subdivision minDuration maxDuration rs t).subdivisionType = subdivision := by
  rw [periodEmit, periodStateAfter, periodScanStep]
  split <;> exact ⟨rfl, rfl⟩

lemma scanEmits_length (ps : List (Option ℤ)) :
    ∀ ev, (scanEmits ev ps).length = ps.length := by
  induction ps with
  | nil => intro ev; rfl
  | cons c rest ih => intro ev; simp [scanEmits, ih]

lemma scanEmits_chain (ps : List (Option ℤ)) :
    ∀ (ev : NoteEvent) (k : ℕ) (h1 : k + 1 < (scanEmits ev ps).length),
      ((scanEmits ev ps).get ⟨k + 1, h1⟩).previous =
        ((scanEmits ev ps).get ⟨k, Nat.lt_of_succ_lt h1⟩).curr := by
  induction ps with
  | nil => intro ev k h1; simp [scanEmits] at h1
  | cons c rest ih =>
      intro ev k h1
      cases k with
      | zero =>
          cases rest with
          | nil => simp [scanEmits] at h1
          | cons d rest2 => rfl
      | succ k =>
          exact ih (noteScanStep ev c) k (by simpa [scanEmits] using h1)

lemma pitchDraw_mem (notes : List ℤ) (transpose : ℤ) (r : ℚ) (hne : notes ≠ [])
    (h0 : 0 ≤ r) (h1 : r < 1) :
    ∃ m ∈ notes, pitchDraw notes transpose r = some (m + transpose) := by
  have hlen : 0 < notes.length := List.length_pos.mpr hne
  have hlenq : (0 : ℚ) < (notes.length : ℚ) := by exact_mod_cast hlen
  have h0i : (0 : ℤ) ≤ ⌊r * (notes.length : ℚ)⌋ :=
    Int.floor_nonneg.mpr (mul_nonneg h0 (le_of_lt hlenq))
  have h1i : ⌊r * (notes.length : ℚ)⌋ < (notes.length : ℤ) := by
    apply Int.floor_lt.mpr
    calc r * (notes.length : ℚ) < 1 * (notes.length : ℚ) :=
          mul_lt_mul_of_pos_right h1 hlenq
      _ = ((notes.length : ℤ) : ℚ) := by push_cast; ring
  have hlt : (⌊r * (notes.length : ℚ)⌋).toNat < notes.length := by omega
  refine ⟨notes.get ⟨(⌊r * (notes.length : ℚ)⌋).toNat, hlt⟩, List.get_mem _ _ _, ?_⟩
  rw [pitchDraw, jsGet, dif_pos ⟨h0i, hlt⟩]
  rfl

lemma periodEndFilter_iff_boundary (subdivision : Subdivision)
    (minDuration maxDuration : ℤ) (rs : ℕ → ℚ) (h1 : 1 ≤ minDuration)
    (h2 : minDuration ≤ maxDuration) (hr : ∀ n, 0 ≤ rs n ∧ rs n < 1) (t : ℕ) :
    (periodEndFilter (periodEmit subdivision minDuration maxDuration rs t) = true ↔
      isBoundaryTick subdivision minDuration maxDuration rs (t + 1) = true) := by
  have hinv := (periodInvariant subdivision minDuration maxDuration rs h1 h2 hr t).1
  simp only [periodEndFilter, isBoundaryTick, periodEmit, ge_iff_le,
    decide_eq_true_eq]
  omega

/-- C6 counterexample: with subdivision Eighth, bounds [1,2], duration
draws of 2 and note set [60,62,63] with transpose 0: tick 0 is an audible
boundary tick yet no NoteEvent is emitted there, while tick 1 is not a
boundary tick yet a NoteEvent is emitted there. -/
theorem c6_note_selector_cex :
    isBoundaryTick Subdivision.Eighth 1 2 (fun _ => (1 : ℚ) / 2) 0 = true ∧
    audible Subdivision.Eighth 0 = true ∧
    noteEmitAt Subdivision.Eighth 1 2 (fun _ => (1 : ℚ) / 2) (fun _ => 0) [60, 62, 63] 0 0 = none ∧
    isBoundaryTick Subdivision.Eighth 1 2 (fun _ => (1 : ℚ) / 2) 1 = false ∧
    audible Subdivision.Eighth 1 = true ∧
    noteEmitAt Subdivision.Eighth 1 2 (fun _ => (1 : ℚ) / 2) (fun _ => 0) [60, 62, 63] 0 1 =
      some (some 60) := by
  have hdraw : drawDuration 1 2 (1 / 2) = 2 := by rw [drawDuration]; norm_num
  have hs1 : periodStateAfter Subdivision.Eighth 1 2 (fun _ => (1 : ℚ) / 2) 1 =
      ⟨0, Subdivision.Eighth, ⟨2, 0⟩⟩ := by
    norm_num [periodStateAfter, periodScanStep, periodSeed, hdraw]
  have hs2 : periodStateAfter Subdivision.Eighth 1 2 (fun _ => (1 : ℚ) / 2) 2 =
      ⟨1, Subdivision.Eighth, ⟨2, 1⟩⟩ := by
    rw [show (2 : ℕ) = 1 + 1 from rfl, periodStateAfter, hs1]
    norm_num [periodScanStep]
  refine ⟨?_, ?_, ?_, ?_, ?_, ?_⟩
  · norm_num [isBoundaryTick, periodStateAfter, periodSeed]
  · norm_num [audible]
  · norm_num [noteEmitAt, periodEmit, hs1, audibleFilter, periodEndFilter]
  · norm_num [isBoundaryTick, hs1]
  · norm_num [audible, Subdivision.val, barLength]
  · norm_num [noteEmitAt, periodEmit, hs2, audibleFilter, periodEndFilter,
      Subdivision.val, barLength, pitchDraw, jsGet]

/-- C6 (amended): for a non-empty note set, bounds 1 <= minDuration <=
maxDuration and random values in [0,1): a NoteEvent is emitted at tick t
exactly when t is audible and the emitted sequencer state satisfies
position + 1 = duration, that is, exactly when t is audible and the NEXT
tick t+1 is a boundary tick (the final tick of each period, not the
boundary tick itself); every emitted pitch is an element of the note set
plus the transpose offset; and each emission carries as previous pitch the
current pitch of the immediately preceding emission (absent on the
first). -/
theorem c6_note_selector_amended (subdivision : Subdivision)
    (minDuration maxDuration : ℤ) (rs rN : ℕ → ℚ) (notes : List ℤ)
    (transpose : ℤ) (hne : notes ≠ []) (h1 : 1 ≤ minDuration)
    (h2 : minDuration ≤ maxDuration) (hrs : ∀ n, 0 ≤ rs n ∧ rs n < 1)
    (hrN : ∀ n, 0 ≤ rN n ∧ rN n < 1) (t : ℕ) :
    ((noteEmitAt subdivision minDuration maxDuration rs rN notes transpose t).isSome = true ↔
      (audible subdivision t = true ∧
        isBoundaryTick subdivision minDuration maxDuration rs (t + 1) = true)) ∧
    (∀ c, noteEmitAt subdivision minDuration maxDuration rs rN notes transpose t = some c →
      ∃ m ∈ notes, c = some (m + transpose)) ∧
    (∀ n k
      (hk : k + 1 < (noteEvents (notePitches subdivision minDuration maxDuration rs rN notes transpose n)).length),
      ((noteEvents (notePitches subdivision minDuration maxDuration rs rN notes transpose n)).get
          ⟨k + 1, hk⟩).previous =
        ((noteEvents (notePitches subdivision minDuration maxDuration rs rN notes transpose n)).get
          ⟨k, Nat.lt_of_succ_lt hk⟩).curr) := by
  have hfields := periodEmit_index subdivision minDuration maxDuration rs t
  have haud : audibleFilter (periodEmit subdivision minDuration maxDuration rs t)
      = audible subdivision t := by
    rw [audibleFilter_eq, hfields.1, hfields.2]
  have hendb : periodEndFilter (periodEmit subdivision minDuration maxDuration rs t)
      = isBoundaryTick subdivision minDuration maxDuration rs (t + 1) :=
    Bool.eq_iff_iff.mpr
      (periodEndFilter_iff_boundary subdivision minDuration maxDuration rs h1 h2 hrs t)
  refine ⟨?_, ?_, ?_⟩
  · rw [noteEmitAt, haud, hendb]
    cases hc : (audible subdivision t &&
        isBoundaryTick subdivision minDuration maxDuration rs (t + 1)) <;>
      simp_all [Bool.and_eq_true]
  · intro c hc
    rw [noteEmitAt] at hc
    by_cases hp : (audibleFilter (periodEmit subdivision minDuration maxDuration rs t) &&
        periodEndFilter (periodEmit subdivision minDuration maxDuration rs t)) = true
    · rw [if_pos hp] at hc
      obtain ⟨m, hm, heq⟩ :=
        pitchDraw_mem notes transpose (rN t) hne (hrN t).1 (hrN t).2
      exact ⟨m, hm, by rw [← Option.some_inj.mp hc, heq]⟩
    · rw [if_neg hp] at hc
      exact absurd hc (by simp)
  · intro n k hk
    exact scanEmits_chain _ _ k hk

theorem c6_note_selector_amended_w :
    (noteEmitAt Subdivision.Eighth 1 2 (fun _ => 1 / 2) (fun _ => 0) [60, 62, 63] 0 1).isSome = true ↔
      (audible Subdivision.Eighth 1 = true ∧
        isBoundaryTick Subdivision.Eighth 1 2 (fun _ => 1 / 2) 2 = true) :=
  (c6_note_selector_amended Subdivision.Eighth 1 2 (fun _ => 1 / 2) (fun _ => 0)
    [60, 62, 63] 0 (by simp) (by norm_num) (by norm_num)
    (fun n => ⟨by norm_num, by norm_num⟩) (fun n => ⟨by norm_num, by norm_num⟩) 1).1

/-- The guard of Main.playNote: if (this.audio && note); a missing or
non-numeric pitch (none) is falsy, as is pitch 0. -/
def playNoteFires (note : Option ℤ) : Bool :=
  match note with
  | none => false
  | some n => decide (n ≠ 0)

/-- C7 counterexample: with an empty note set the Note Selector still
produces a NoteEvent on a qualifying tick (its current pitch missing:
notes[0] is undefined and undefined + transpose is not a number), so the
claim that no NoteEvent is produced is false; no error is reported
anywhere in the pipeline, and playNote's guard silently drops the value. -/
theorem c7_empty_notes_cex :
    noteEmitAt Subdivision.Eighth 1 1 (fun _ => 0) (fun _ => 0) [] 0 0 = some none ∧
    playNoteFires none = false := by
  have hdraw : drawDuration 1 1 0 = 1 := by rw [drawDuration]; norm_num
  have hs1 : periodStateAfter Subdivision.Eighth 1 1 (fun _ => (0 : ℚ)) 1 =
      ⟨0, Subdivision.Eighth, ⟨1, 0⟩⟩ := by
    norm_num [periodStateAfter, periodScanStep, periodSeed, hdraw]
  constructor
  · norm_num [noteEmitAt, periodEmit, hs1, audibleFilter, periodEndFilter,
      pitchDraw, jsGet]
  · rfl

/-- C7 (amended): with an empty note set the Note Selector does not crash
and does not report an error: it keeps emitting NoteEvents on qualifying
ticks whose current pitch is missing (NaN in the source), and the
truthiness guard of Main.playNote rejects such a pitch, so playback is a
silent no-op. -/
theorem c7_empty_notes_amended (subdivision : Subdivision)
    (minDuration maxDuration : ℤ) (rs rN : ℕ → ℚ) (transpose : ℤ) (t : ℕ) :
    (∀ c, noteEmitAt subdivision minDuration maxDuration rs rN [] transpose t = some c →
      c = none ∧ playNoteFires c = false) ∧
    pitchDraw [] transpose (rN t) = none := by
  have hpd : pitchDraw [] transpose (rN t) = none := by
    rw [pitchDraw, jsGet]
    rw [dif_neg (by simp)]
    rfl
  refine ⟨?_, hpd⟩
  intro c hc
  rw [noteEmitAt] at hc
  by_cases hp : (audibleFilter (periodEmit subdivision minDuration maxDuration rs t) &&
      periodEndFilter (periodEmit subdivision minDuration maxDuration rs t)) = true
  · rw [if_pos hp] at hc
    have : c = none := by
      rw [← Option.some_inj.mp hc, hpd]
    exact ⟨this, by rw [this]; rfl⟩
  · rw [if_neg hp] at hc
    exact absurd hc (by simp)

/-- The live state of Main's running pipeline (lines 185-196 of index.ts)
while playing: notes and transpose are the latest values of the notes and
transpose input streams; period and tickCount are the scan accumulator and
interval counter of the share()d period stream, which the click
subscription keeps alive across note-stream switches; lastEvent is the
scan accumulator of the currently subscribed createNoteEventStream
(switchMap replaces that inner stream, and with it this accumulator,
whenever notes or transpose change). -/
structure PipelineState where
  notes : List ℤ
  transpose : ℤ
  period : Period
  tickCount : ℕ
  lastEvent : NoteEvent
deriving DecidableEq

/-- An event Main's wiring reacts to: a clock tick (with the Math.random()
values for the duration draw and the pitch draw), a change of the note
set, or a change of the transpose offset. -/
inductive PipelineEvent where
  | tick (rPeriod rNote : ℚ)
  | setNotes (ns : List ℤ)
  | setTranspose (x : ℤ)

/-- One reaction of Main's wiring: a tick advances the shared period scan
and, when both note filters pass, advances the note scan and emits; a
notes or transpose change only swaps the inner note stream (resetting its
scan seed) and emits nothing. Returns the next state and the NoteEvent
emitted, if any. -/
def pipelineStep (subdivision : Subdivision) (minDuration maxDuration : ℤ)
    (s : PipelineState) : PipelineEvent → PipelineState × Option NoteEvent
  | PipelineEvent.tick rPeriod rNote =>
      let p := periodScanStep subdivision minDuration maxDuration rPeriod s.period s.tickCount
      if audibleFilter p && periodEndFilter p then
        let ev := noteScanStep s.lastEvent (pitchDraw s.notes s.transpose rNote)
        ({ s with period := p, tickCount := s.tickCount + 1, lastEvent := ev }, some ev)
      else
        ({ s with period := p, tickCount := s.tickCount + 1 }, none)
  | PipelineEvent.setNotes ns =>
      ({ s with notes := ns, lastEvent := { curr := none, previous := none } }, none)
  | PipelineEvent.setTranspose x =>
      ({ s with transpose := x, lastEvent := { curr := none, previous := none } }, none)

/-- C8: while the pipeline is running, changing the note set or the
transpose neither restarts the clock nor the sequencer: the tick counter
and the pending period (duration and position) are unchanged and no
NoteEvent is emitted by the change; the next tick advances the very same
period state as without the change, and the pitch it may draw uses the new
note set with the unchanged transpose. -/
theorem c8_live_reconfigure (subdivision : Subdivision)
    (minDuration maxDuration : ℤ) (s : PipelineState) (ns : List ℤ) (x : ℤ)
    (rPeriod rNote : ℚ) :
    (pipelineStep subdivision minDuration maxDuration s (PipelineEvent.setNotes ns)).1.tickCount = s.tickCount ∧
    (pipelineStep subdivision minDuration maxDuration s (PipelineEvent.setNotes ns)).1.period = s.period ∧
    (pipelineStep subdivision minDuration maxDuration s (PipelineEvent.setNotes ns)).2 = none ∧
    (pipelineStep subdivision minDuration maxDuration s (PipelineEvent.setTranspose x)).1.tickCount = s.tickCount ∧
    (pipelineStep subdivision minDuration maxDuration s (PipelineEvent.setTranspose x)).1.period = s.period ∧
    (pipelineStep subdivision minDuration maxDuration s (PipelineEvent.setTranspose x)).2 = none ∧
    (pipelineStep subdivision minDuration maxDuration
        (pipelineStep subdivision minDuration maxDuration s (PipelineEvent.setNotes ns)).1
        (PipelineEvent.tick rPeriod rNote)).1.period =
      (pipelineStep subdivision minDuration maxDuration s
        (PipelineEvent.tick rPeriod rNote)).1.period ∧
    (pipelineStep subdivision minDuration maxDuration
        (pipelineStep subdivision minDuration maxDuration s (PipelineEvent.setNotes ns)).1
        (PipelineEvent.tick rPeriod rNote)).2 =
      (if audibleFilter (periodScanStep subdivision minDuration maxDuration rPeriod s.period s.tickCount) &&
          periodEndFilter (periodScanStep subdivision minDuration maxDuration rPeriod s.period s.tickCount) then
        some { curr := pitchDraw ns s.transpose rNote, previous := none }
      else
        none) := by
  obtain ⟨nts, tr, per, tc, le⟩ := s
  refine ⟨rfl, rfl, rfl, rfl, rfl, rfl, ?_, ?_⟩ <;>
    simp only [pipelineStep] <;> split <;> rfl

/-- The persisted settings store (localStorage): each key present or
absent, values already parsed to the numbers or the note list the source
reads from them. -/
structure Store where
  bpm : Option ℤ
  subdivision : Option ℤ
  maxDuration : Option ℤ
  minDuration : Option ℤ
  transpose : Option ℤ
  notes : Option (List ℤ)
deriving DecidableEq

/-- The result of Main.loadSettings. -/
structure LoadedSettings where
  bpm : ℤ
  subdivision : ℤ
  maxDuration : ℤ
  minDuration : ℤ
  transpose : ℤ
  notes : List ℤ
deriving DecidableEq

/-- Main.loadSettings: each absent key is replaced by its literal default
(80, Subdivision.Eighth = 2, 2, 1, 0, [60, 62, 63]). -/
def loadSettings (st : Store) : LoadedSettings :=
  { bpm := st.bpm.getD 80
    subdivision := st.subdivision.getD 2
    maxDuration := st.maxDuration.getD 2
    minDuration := st.minDuration.getD 1
    transpose := st.transpose.getD 0
    notes := st.notes.getD [60, 62, 63] }

/-- The arguments createPeriodStream receives. -/
structure PeriodStreamArgs where
  bpm : ℤ
  subdivision : ℤ
  maxDuration : ℤ
  minDuration : ℤ
deriving DecidableEq

/-- The createPeriodStream call Main's constructor builds at startup
(lines 176-183): bpm and subdivision from the loaded settings,
maxDuration = (subdivision * 2) - 1 and minDuration = 1, the stored
duration bounds never read. -/
def startupPeriodArgs (st : Store) : PeriodStreamArgs :=
  { bpm := (loadSettings st).bpm
    subdivision := (loadSettings st).subdivision
    maxDuration := (loadSettings st).subdivision * 2 - 1
    minDuration := 1 }

/-- C9: at startup every absent persisted key falls back to its documented
default in the values the pipeline uses: tempo 80, subdivision 2 (eighth),
transpose 0, note set [60, 62, 63]; the duration bounds the pipeline uses
are minDuration = 1 always and maxDuration = 2 * subdivision - 1 always,
so in particular when their keys are absent. -/
theorem c9_startup_defaults (st : Store) :
    (st.bpm = none → (loadSettings st).bpm = 80) ∧
    (st.subdivision = none → (loadSettings st).subdivision = 2) ∧
    (st.transpose = none → (loadSettings st).transpose = 0) ∧
    (st.notes = none → (loadSettings st).notes = [60, 62, 63]) ∧
    (startupPeriodArgs st).minDuration = 1 ∧
    (startupPeriodArgs st).maxDuration = 2 * (loadSettings st).subdivision - 1 ∧
    (st.subdivision = none → (startupPeriodArgs st).maxDuration = 3) := by
  refine ⟨?_, ?_, ?_, ?_, rfl, by rw [startupPeriodArgs]; ring_nf, ?_⟩ <;>
    intro h <;> simp [loadSettings, startupPeriodArgs, h]

/-- C10: the Period Sequencer pipeline is always built with
minDuration = 1 and maxDuration = 2 * subdivision - 1, derived from the
current subdivision alone; the minDuration and maxDuration values that
loadSettings reads from the store are never passed on, so changing the
stored bounds changes nothing about the constructed pipeline. -/
theorem c10_derived_bounds (st : Store) (mv xv : Option ℤ) :
    (startupPeriodArgs st).minDuration = 1 ∧
    (startupPeriodArgs st).maxDuration = 2 * (loadSettings st).subdivision - 1 ∧
    startupPeriodArgs { st with minDuration := mv, maxDuration := xv } = startupPeriodArgs st := by
  refine ⟨rfl, by rw [startupPeriodArgs]; ring_nf, ?_⟩
  rfl
